import Mathlib

/-!
Shallow embedding of a network service probe with two variants:
an option-aware (telnet) variant that strips inline option-negotiation
sequences and matches prompts by substring containment, and a plain-line
(ssh-named) variant that reads whole lines and compares trimmed output for
exact equality.  A connection is modelled as a script of read events plus a
log of written chunks; every loop takes explicit fuel and is invoked with
fuel strictly larger than the number of events it can consume, so all
definitions compute.
-/

/-- A byte of the wire protocol, kept as a natural number 0..255. -/
abbrev Byte := Nat

/-- One result of a single read call on the connection: a byte with no
error, a byte delivered together with an error (Go reads may return both),
or an error with no byte. -/
inductive ReadEv where
  | ok (b : Byte)
  | okErr (b : Byte) (e : String)
  | fail (e : String)
deriving DecidableEq

/-- A scripted connection: the remaining inbound events and the log of
chunks written so far (each write call appends one chunk). -/
structure Conn where
  input : List ReadEv
  writes : List (List Byte)
deriving DecidableEq

/-- One byte-sized read, `conn.Read(one)` on a 1-byte buffer: returns the
optional byte, the optional error, and the advanced connection.  Reading an
exhausted script behaves as a deadline expiry. -/
def read1 : Conn → (Option Byte × Option String) × Conn
  | ⟨[], w⟩ => ((none, some ("i/o timeout")), ⟨[], w⟩)
  | ⟨.ok b :: r, w⟩ => ((some b, none), ⟨r, w⟩)
  | ⟨.okErr b e :: r, w⟩ => ((some b, some e), ⟨r, w⟩)
  | ⟨.fail e :: r, w⟩ => ((none, some e), ⟨r, w⟩)

/-- One `conn.Write` call: appends one chunk to the write log. -/
def writeChunk (c : Conn) (chunk : List Byte) : Conn :=
  ⟨c.input, c.writes ++ [chunk]⟩

/-- The bytes of a Go string. -/
def str (s : String) : List Byte := s.data.map Char.toNat

/-- All bytes delivered by a script (bytes of `ok` and `okErr` events). -/
def dataBytes : List ReadEv → List Byte
  | [] => []
  | .ok b :: r => b :: dataBytes r
  | .okErr b _ :: r => b :: dataBytes r
  | .fail _ :: r => dataBytes r

/-- The configuration record shared by both variants. -/
structure Schema where
  Server : String
  Port : Nat
  Username : String
  Password : String
  Command : String
  ExpectedOutput : String

/-- Is `p` a (byte-wise) leading prefix of `s`? -/
def isPrefixB : List Byte → List Byte → Bool
  | [], _ => true
  | _ :: _, [] => false
  | a :: l₁, b :: l₂ => a == b && isPrefixB l₁ l₂

/-- `strings.Contains` / `bytes.Contains`: does `pat` occur in `s` as a
contiguous substring? -/
def containsSub (pat : List Byte) : List Byte → Bool
  | [] => pat.isEmpty
  | b :: r => isPrefixB pat (b :: r) || containsSub pat r

/-- Is `b` ASCII whitespace (the bytes `strings.TrimSpace` trims in the
ASCII range)? -/
def trimByte (b : Byte) : Bool :=
  b = 32 || b = 9 || b = 10 || b = 11 || b = 12 || b = 13

/-- `strings.TrimSpace` on a byte string. -/
def trimSpace (s : List Byte) : List Byte :=
  ((s.dropWhile trimByte).reverse.dropWhile trimByte).reverse

namespace Telnet

def IAC : Byte := 255
def WILL : Byte := 251
def WONT : Byte := 252
def DO : Byte := 253
def DONT : Byte := 254
def SB : Byte := 250
def SE : Byte := 240

/-- The subnegotiation loop of `handleIAC`: read events until the two-byte
terminator (IAC, SE), or until a read error; returns the remaining script.
The loop never writes, so it is a function on the input script alone. -/
def sbConsume : Nat → List ReadEv → List ReadEv
  | 0, i => i
  | fuel+1, i =>
    match i with
    | [] => []
    | .fail _ :: r => r
    | .okErr _ _ :: r => r
    | .ok b :: r =>
      if b = IAC then
        match r with
        | [] => []
        | .fail _ :: r₂ => r₂
        | .okErr _ _ :: r₂ => r₂
        | .ok b₂ :: r₂ => if b₂ = SE then r₂ else sbConsume fuel r₂
      else sbConsume fuel r

/-- `handleIAC`: reads the rest of an IAC sequence and sends the
appropriate refusal response; returns the advanced connection and whether
an IAC was handled.  A read error on the command byte returns handled with
nothing written; read errors on the option byte of DO and WILL are ignored
(the refusal is written with the zero byte the untouched buffer holds). -/
def handleIAC (c : Conn) (firstByte : Byte) : Conn × Bool :=
  if firstByte ≠ IAC then (c, false)
  else
    let r := read1 c
    match r.1.2 with
    | some _ => (r.2, true)
    | none =>
      match r.1.1 with
      | none => (r.2, true)
      | some cmd =>
        if cmd = DO then
          let r₂ := read1 r.2
          (writeChunk r₂.2 [IAC, WONT, r₂.1.1.getD 0], true)
        else if cmd = WILL then
          let r₂ := read1 r.2
          (writeChunk r₂.2 [IAC, DONT, r₂.1.1.getD 0], true)
        else if cmd = WONT ∨ cmd = DONT then
          ((read1 r.2).2, true)
        else if cmd = SB then
          (⟨sbConsume (r.2.input.length + 1) r.2.input, r.2.writes⟩, true)
        else (r.2, true)

/-- The inner scan of `readUntilAny`: the first target in list order that
the buffer contains, if any. -/
def matchTarget (ts : List (List Byte)) (s : List Byte) : Option (List Byte) :=
  ts.find? (fun t => containsSub t s)

/-- The loop of `readUntilAny`: read one byte at a time, offer it to the
filter, append unfiltered bytes to the buffer, return the buffer on the
first containment of a target, or the buffer and a wrapped error naming the
targets on a read failure with no match. -/
def readUntilAnyAux : Nat → List (List Byte) → Conn → List Byte →
    Conn × (List Byte × Option (List (List Byte) × String))
  | 0, ts, c, buf => (c, (buf, some ((ts, "i/o timeout"))))
  | fuel+1, ts, c, buf =>
    let r := read1 c
    match r.1.1 with
    | some b =>
      let hc := handleIAC r.2 b
      if hc.2 then readUntilAnyAux fuel ts hc.1 buf
      else
        let buf₂ := buf ++ [b]
        if (matchTarget ts buf₂).isSome then (hc.1, (buf₂, none))
        else
          match r.1.2 with
          | some e => (hc.1, (buf₂, some ((ts, e))))
          | none => readUntilAnyAux fuel ts hc.1 buf₂
    | none =>
      match r.1.2 with
      | some e => (r.2, (buf, some ((ts, e))))
      | none => readUntilAnyAux fuel ts r.2 buf

/-- `readUntilAny`: the loop above, started with a fresh empty buffer and
enough fuel for the whole script. -/
def readUntilAny (ts : List (List Byte)) (c : Conn) :
    Conn × (List Byte × Option (List (List Byte) × String)) :=
  readUntilAnyAux (c.input.length + 1) ts c []

/-- `sendLine`: write the string followed by a telnet newline CR LF. -/
def sendLine (c : Conn) (line : List Byte) : Conn × Option String :=
  (writeChunk c (line ++ [13, 10]), none)

/-- The final comparison of the option-aware `Run`: pass iff the captured
output contains the expected output as a substring. -/
def finalCheck (conf : Schema) (cmdOutput : List Byte) : Except String Unit :=
  if containsSub (str conf.ExpectedOutput) cmdOutput then .ok ()
  else .error ("failed: outputs do not match")

/-- Steps 4 and 5 of the option-aware `Run`: send the command, wait for the
prompt again, and compare the captured buffer. -/
def afterShell (conf : Schema) (c : Conn) : Except String Unit × Conn :=
  let s := sendLine c (str conf.Command)
  match s.2 with
  | some _ => (.error ("failed sending command"), s.1)
  | none =>
    let r := readUntilAny [str ("$ "), str ("# ")] s.1
    match r.2.2 with
    | some _ => (.error ("failed reading command output"), r.1)
    | none => (finalCheck conf r.2.1, r.1)

/-- The step of the option-aware `Run` taken once the password prompt has
matched: the source sends the username a second time here (line 193 sends
`conf.Username`, not `conf.Password`), then waits for the shell prompt. -/
def afterPassword (conf : Schema) (c : Conn) : Except String Unit × Conn :=
  let s := sendLine c (str conf.Username)
  match s.2 with
  | some _ => (.error ("failed sending password"), s.1)
  | none =>
    let r := readUntilAny [str ("$ "), str ("# ")] s.1
    match r.2.2 with
    | some _ => (.error ("failed waiting for shell prompt"), r.1)
    | none => afterShell conf r.1

/-- The step of the option-aware `Run` taken once the login prompt has
matched: send the username, wait for the password prompt. -/
def afterLogin (conf : Schema) (c : Conn) : Except String Unit × Conn :=
  let s := sendLine c (str conf.Username)
  match s.2 with
  | some _ => (.error ("failed sending username"), s.1)
  | none =>
    let r := readUntilAny [str ("assword:")] s.1
    match r.2.2 with
    | some _ => (.error ("failed waiting for password prompt"), r.1)
    | none => afterPassword conf r.1

/-- The option-aware `Run`: deadline check, dial, then the staged
login/password/shell/command exchange. -/
def Run (hasDeadline : Bool) (dialErr : Option String) (conf : Schema)
    (c : Conn) : Except String Unit × Conn :=
  if !hasDeadline then (.error ("context deadline is not set"), c)
  else
    match dialErr with
    | some _ => (.error ("failed to dial"), c)
    | none =>
      let r := readUntilAny [str ("ogin:")] c
      match r.2.2 with
      | some _ => (.error ("failed waiting for login prompt"), r.1)
      | none => afterLogin conf r.1

end Telnet

namespace Ssh

/-- `bufio.Reader.ReadString` with delimiter LF over the event script:
accumulate bytes until a newline (returned with the line, no error) or an
error.  A byte delivered together with an error completes the line if it is
the delimiter, with the error left pending for the next read. -/
def readStringAux : List ReadEv → List Byte → List ReadEv × (List Byte × Option String)
  | [], acc => ([], (acc, some ("i/o timeout")))
  | .ok b :: rest, acc =>
    if b = 10 then (rest, (acc ++ [b], none)) else readStringAux rest (acc ++ [b])
  | .okErr b e :: rest, acc =>
    if b = 10 then (.fail e :: rest, (acc ++ [b], none)) else (rest, (acc ++ [b], some e))
  | .fail e :: rest, acc => (rest, (acc, some e))

/-- The event-weight of a script, used only to size the fuel of the line
loops: a byte-with-error event can surface as two reads. -/
def evMeasure (l : List ReadEv) : Nat :=
  (l.map (fun ev => match ev with | .okErr _ _ => 2 | _ => 1)).sum

/-- The first loop of the plain-line `Run`: read lines until one contains
`login:`, then send the username followed by LF. -/
def loginLoop : Nat → List Byte → Conn → Conn × Option String
  | 0, _, c => (c, some ("context deadline is not set"))
  | fuel+1, u, c =>
    let r := readStringAux c.input []
    match r.2.2 with
    | some _ => (⟨r.1, c.writes⟩, some ("context deadline is not set"))
    | none =>
      if containsSub (str ("login:")) r.2.1 then
        (writeChunk ⟨r.1, c.writes⟩ (u ++ [10]), none)
      else loginLoop fuel u ⟨r.1, c.writes⟩

/-- The second loop of the plain-line `Run`: read lines until one contains
`Password:`, then send the password followed by LF. -/
def passwordLoop : Nat → List Byte → Conn → Conn × Option String
  | 0, _, c => (c, some ("context deadline is not set"))
  | fuel+1, p, c =>
    let r := readStringAux c.input []
    match r.2.2 with
    | some _ => (⟨r.1, c.writes⟩, some ("context deadline is not set"))
    | none =>
      if containsSub (str ("Password:")) r.2.1 then
        (writeChunk ⟨r.1, c.writes⟩ (p ++ [10]), none)
      else passwordLoop fuel p ⟨r.1, c.writes⟩

/-- The output-capture loop of the plain-line `Run`: read lines under a
short per-read deadline, appending each complete line, until a read errors
or times out; a partial line delivered with the error is discarded. -/
def outputLoop : Nat → Conn → List Byte → Conn × List Byte
  | 0, c, acc => (c, acc)
  | fuel+1, c, acc =>
    let r := readStringAux c.input []
    match r.2.2 with
    | some _ => (⟨r.1, c.writes⟩, acc)
    | none => outputLoop fuel ⟨r.1, c.writes⟩ (acc ++ r.2.1)

/-- The final comparison of the plain-line `Run`: pass iff the trimmed
accumulated output equals the trimmed expected output exactly. -/
def finalCheck (conf : Schema) (out : List Byte) : Except String Unit :=
  if trimSpace out = trimSpace (str conf.ExpectedOutput) then .ok ()
  else .error ("expected output mismatch")

/-- The plain-line `Run` after the password has been sent: read exactly one
more line; if it contains `login:` report a login failure and send nothing
further; otherwise send the command followed by LF, capture output lines
until a read times out, and compare. -/
def afterPassword (conf : Schema) (c : Conn) : Except String Unit × Conn :=
  let r := readStringAux c.input []
  match r.2.2 with
  | some _ => (.error ("context deadline is not set"), ⟨r.1, c.writes⟩)
  | none =>
    if containsSub (str ("login:")) r.2.1 then
      (.error ("Login failed"), ⟨r.1, c.writes⟩)
    else
      let c₂ := writeChunk ⟨r.1, c.writes⟩ (str conf.Command ++ [10])
      let o := outputLoop (evMeasure c₂.input + 1) c₂ []
      (finalCheck conf o.2, o.1)

/-- The plain-line `Run`: deadline check, dial, login loop, password loop,
then the post-password step. -/
def Run (hasDeadline : Bool) (dialErr : Option String) (conf : Schema)
    (c : Conn) : Except String Unit × Conn :=
  if !hasDeadline then (.error ("context deadline is not set"), c)
  else
    match dialErr with
    | some _ => (.error ("tcp dial failed"), c)
    | none =>
      let l := loginLoop (evMeasure c.input + 1) (str conf.Username) c
      match l.2 with
      | some m => (.error m, l.1)
      | none =>
        let p := passwordLoop (evMeasure l.1.input + 1) (str conf.Password) l.1
        match p.2 with
        | some m => (.error m, p.1)
        | none => afterPassword conf p.1

end Ssh

/-! ## Basic lemmas about the embedding -/

lemma read1_writes (c : Conn) : ((read1 c).2).writes = c.writes := by
  obtain ⟨i, w⟩ := c
  cases i with
  | nil => rfl
  | cons ev r => cases ev <;> rfl

lemma read1_input (c : Conn) : ((read1 c).2).input <:+ c.input := by
  obtain ⟨i, w⟩ := c
  cases i with
  | nil => exact List.suffix_refl _
  | cons ev r => cases ev <;> exact List.suffix_cons _ _

lemma isPrefixB_iff : ∀ p s : List Byte, isPrefixB p s = true ↔ p <+: s := by
  intro p
  induction p with
  | nil => intro s; simp [isPrefixB, List.nil_prefix]
  | cons a l ih =>
    intro s
    cases s with
    | nil => simp [isPrefixB]
    | cons b t => simp [isPrefixB, List.cons_prefix_cons, ih, And.comm]

lemma containsSub_iff : ∀ p s : List Byte, containsSub p s = true ↔ p <:+: s := by
  intro p s
  induction s with
  | nil => simp [containsSub, List.isEmpty_iff, List.infix_nil]
  | cons b t ih => simp [containsSub, isPrefixB_iff, ih, List.infix_cons_iff]

lemma matchTarget_nil (ts : List (List Byte)) (h : ∀ t ∈ ts, t ≠ []) :
    Telnet.matchTarget ts [] = none := by
  unfold Telnet.matchTarget
  rw [List.find?_eq_none]
  intro t ht
  simp only [Bool.not_eq_true, containsSub]
  exact List.isEmpty_eq_false.mpr (h t ht)

lemma find?_layout {α : Type} (p : α → Bool) :
    ∀ (l : List α) (a : α), l.find? p = some a →
      ∃ l₁ l₂, l = l₁ ++ a :: l₂ ∧ ∀ x ∈ l₁, p x = false := by
  intro l
  induction l with
  | nil => intro a h; simp at h
  | cons hd tl ih =>
    intro a h
    cases hp : p hd with
    | true =>
      rw [List.find?_cons_of_pos _ hp] at h
      obtain rfl : hd = a := by injection h
      exact ⟨[], tl, rfl, by simp⟩
    | false =>
      rw [List.find?_cons_of_neg _ (by simp [hp])] at h
      obtain ⟨l₁, l₂, rfl, hall⟩ := ih a h
      refine ⟨hd :: l₁, l₂, rfl, ?_⟩
      intro x hx
      rcases List.mem_cons.mp hx with rfl | hx
      · exact hp
      · exact hall x hx

lemma handleIAC_not (c : Conn) (b : Byte) (hb : b ≠ 255) :
    Telnet.handleIAC c b = (c, false) := by
  unfold Telnet.handleIAC
  rw [if_pos]
  simpa [Telnet.IAC] using hb

/-! ## Single-step unfoldings of the prompt-matcher loop -/

lemma aux_step_fail (n : Nat) (ts : List (List Byte)) (e : String)
    (rest : List ReadEv) (w : List (List Byte)) (buf : List Byte) :
    Telnet.readUntilAnyAux (n+1) ts ⟨.fail e :: rest, w⟩ buf
      = (⟨rest, w⟩, (buf, some ((ts, e)))) := rfl

lemma aux_step_empty (n : Nat) (ts : List (List Byte)) (w : List (List Byte))
    (buf : List Byte) :
    Telnet.readUntilAnyAux (n+1) ts ⟨[], w⟩ buf
      = (⟨[], w⟩, (buf, some ((ts, "i/o timeout")))) := rfl

lemma aux_step_ok (n : Nat) (ts : List (List Byte)) (b : Byte)
    (rest : List ReadEv) (w : List (List Byte)) (buf : List Byte) (hb : b ≠ 255) :
    Telnet.readUntilAnyAux (n+1) ts ⟨.ok b :: rest, w⟩ buf
      = (if (Telnet.matchTarget ts (buf ++ [b])).isSome then
           (⟨rest, w⟩, (buf ++ [b], none))
         else Telnet.readUntilAnyAux n ts ⟨rest, w⟩ (buf ++ [b])) := by
  simp only [Telnet.readUntilAnyAux, read1, handleIAC_not ⟨rest, w⟩ b hb,
    Bool.false_eq_true, if_false]

lemma aux_step_okErr (n : Nat) (ts : List (List Byte)) (b : Byte) (e : String)
    (rest : List ReadEv) (w : List (List Byte)) (buf : List Byte) (hb : b ≠ 255) :
    Telnet.readUntilAnyAux (n+1) ts ⟨.okErr b e :: rest, w⟩ buf
      = (if (Telnet.matchTarget ts (buf ++ [b])).isSome then
           (⟨rest, w⟩, (buf ++ [b], none))
         else (⟨rest, w⟩, (buf ++ [b], some ((ts, e))))) := by
  simp only [Telnet.readUntilAnyAux, read1, handleIAC_not ⟨rest, w⟩ b hb,
    Bool.false_eq_true, if_false]

/-- Traversal of a stretch of plain data bytes none of whose prefixes
completes a target: the loop appends them all and continues. -/
lemma aux_skip (ts : List (List Byte)) :
    ∀ (data : List Byte) (rest : List ReadEv) (w : List (List Byte)) (buf : List Byte),
    (∀ b ∈ data, b ≠ 255) →
    (∀ j, j ≤ data.length → Telnet.matchTarget ts (buf ++ data.take j) = none) →
    Telnet.readUntilAnyAux ((data.map ReadEv.ok ++ rest).length + 1) ts
        ⟨data.map ReadEv.ok ++ rest, w⟩ buf
      = Telnet.readUntilAnyAux (rest.length + 1) ts ⟨rest, w⟩ (buf ++ data) := by
  intro data
  induction data with
  | nil => intro rest w buf _ _; simp
  | cons b d ih =>
    intro rest w buf hno hnm
    have hb : b ≠ 255 := hno b (by simp)
    have hlist : (b :: d).map ReadEv.ok ++ rest = ReadEv.ok b :: (d.map ReadEv.ok ++ rest) := by
      simp
    rw [hlist, List.length_cons, aux_step_ok _ _ _ _ _ _ hb]
    have h1 : Telnet.matchTarget ts (buf ++ [b]) = none := by
      have h := hnm 1 (by simp)
      simpa [List.take_succ_cons] using h
    rw [if_neg (by simp [h1])]
    have hrec := ih rest w (buf ++ [b]) (fun x hx => hno x (by simp [hx]))
      (by
        intro j hj
        have h := hnm (j+1) (by simpa using Nat.succ_le_succ hj)
        simpa [List.take_succ_cons, List.append_assoc] using h)
    rw [hrec]
    simp [List.append_assoc]

/-- Every error returned by the prompt-matcher loop is wrapped with the
target list that was being awaited. -/
lemma aux_err_targets :
    ∀ (fuel : Nat) (ts : List (List Byte)) (c : Conn) (buf : List Byte)
      (p : List (List Byte) × String),
    (Telnet.readUntilAnyAux fuel ts c buf).2.2 = some p → p.1 = ts := by
  intro fuel
  induction fuel with
  | zero =>
    intro ts c buf p h
    simp only [Telnet.readUntilAnyAux, Option.some.injEq] at h
    rw [← h]
  | succ n ih =>
    intro ts c buf p h
    obtain ⟨i, w⟩ := c
    cases i with
    | nil =>
      simp only [Telnet.readUntilAnyAux, read1, Option.some.injEq] at h
      rw [← h]
    | cons ev r =>
      cases ev with
      | fail e =>
        rw [aux_step_fail] at h
        simp only [Option.some.injEq] at h
        rw [← h]
      | ok b =>
        by_cases hb : b = 255
        · subst hb
          simp only [Telnet.readUntilAnyAux, read1] at h
          split at h
          · exact ih ts _ buf p h
          · split at h
            · simp at h
            · exact ih ts _ _ p h
        · rw [aux_step_ok _ _ _ _ _ _ hb] at h
          split at h
          · simp at h
          · exact ih ts _ _ p h
      | okErr b e =>
        by_cases hb : b = 255
        · subst hb
          simp only [Telnet.readUntilAnyAux, read1] at h
          split at h
          · exact ih ts _ buf p h
          · split at h
            · simp at h
            · simp only [Option.some.injEq] at h
              rw [← h]
        · rw [aux_step_okErr _ _ _ _ _ _ _ hb] at h
          split at h
          · simp at h
          · simp only [Option.some.injEq] at h
            rw [← h]

/-! ## The filter and the matcher only append to the write log -/

lemma read1_ok (b : Byte) (r : List ReadEv) (w : List (List Byte)) :
    read1 ⟨.ok b :: r, w⟩ = ((some b, none), ⟨r, w⟩) := rfl

lemma read1_okErr (b : Byte) (e : String) (r : List ReadEv) (w : List (List Byte)) :
    read1 ⟨.okErr b e :: r, w⟩ = ((some b, some e), ⟨r, w⟩) := rfl

lemma read1_fail (e : String) (r : List ReadEv) (w : List (List Byte)) :
    read1 ⟨.fail e :: r, w⟩ = ((none, some e), ⟨r, w⟩) := rfl

lemma read1_nil (w : List (List Byte)) :
    read1 ⟨[], w⟩ = ((none, some ("i/o timeout")), ⟨[], w⟩) := rfl

lemma sbConsume_suffix : ∀ (fuel : Nat) (i : List ReadEv),
    Telnet.sbConsume fuel i <:+ i := by
  intro fuel
  induction fuel with
  | zero => intro i; exact List.suffix_refl _
  | succ n ih =>
    intro i
    cases i with
    | nil => exact List.suffix_refl _
    | cons ev r =>
      cases ev with
      | fail e => exact List.suffix_cons _ _
      | okErr b e => exact List.suffix_cons _ _
      | ok b =>
        by_cases hb : b = Telnet.IAC
        · subst hb
          cases r with
          | nil =>
            simp only [Telnet.sbConsume, if_pos rfl]
            exact List.nil_suffix
          | cons ev₂ r₂ =>
            cases ev₂ with
            | fail e =>
              simp only [Telnet.sbConsume, if_pos rfl]
              exact (List.suffix_cons _ _).trans (List.suffix_cons _ _)
            | okErr b₂ e =>
              simp only [Telnet.sbConsume, if_pos rfl]
              exact (List.suffix_cons _ _).trans (List.suffix_cons _ _)
            | ok b₂ =>
              by_cases hse : b₂ = Telnet.SE
              · simp only [Telnet.sbConsume, if_pos rfl, if_pos hse]
                exact (List.suffix_cons _ _).trans (List.suffix_cons _ _)
              · simp only [Telnet.sbConsume, if_pos rfl, if_neg hse]
                exact ((ih r₂).trans (List.suffix_cons _ _)).trans (List.suffix_cons _ _)
        · simp only [Telnet.sbConsume, if_neg hb]
          exact (ih r).trans (List.suffix_cons _ _)

lemma handleIAC_writes (c : Conn) (b : Byte) :
    ∃ l, (Telnet.handleIAC c b).1.writes = c.writes ++ l := by
  by_cases hb : b = 255
  · subst hb
    obtain ⟨i, w⟩ := c
    unfold Telnet.handleIAC
    rw [if_neg (by simp [Telnet.IAC])]
    cases i with
    | nil => exact ⟨[], by simp [read1_nil]⟩
    | cons ev r =>
      cases ev with
      | fail e => exact ⟨[], by simp [read1_fail]⟩
      | okErr b₂ e => exact ⟨[], by simp [read1_okErr]⟩
      | ok cmd =>
        simp only [read1_ok]
        split
        · exact ⟨[[Telnet.IAC, Telnet.WONT, (read1 ⟨r, w⟩).1.1.getD 0]],
            by simp [writeChunk, read1_writes]⟩
        · split
          · exact ⟨[[Telnet.IAC, Telnet.DONT, (read1 ⟨r, w⟩).1.1.getD 0]],
              by simp [writeChunk, read1_writes]⟩
          · split
            · exact ⟨[], by simp [read1_writes]⟩
            · split
              · exact ⟨[], by simp⟩
              · exact ⟨[], by simp⟩
  · rw [handleIAC_not c b hb]
    exact ⟨[], by simp⟩

lemma handleIAC_input (c : Conn) (b : Byte) :
    (Telnet.handleIAC c b).1.input <:+ c.input := by
  by_cases hb : b = 255
  · subst hb
    obtain ⟨i, w⟩ := c
    unfold Telnet.handleIAC
    rw [if_neg (by simp [Telnet.IAC])]
    cases i with
    | nil =>
      simp only [read1_nil]
      exact List.suffix_refl _
    | cons ev r =>
      cases ev with
      | fail e =>
        simp only [read1_fail]
        exact List.suffix_cons _ _
      | okErr b₂ e =>
        simp only [read1_okErr]
        exact List.suffix_cons _ _
      | ok cmd =>
        simp only [read1_ok]
        split
        · exact (read1_input ⟨r, w⟩).trans (List.suffix_cons _ _)
        · split
          · exact (read1_input ⟨r, w⟩).trans (List.suffix_cons _ _)
          · split
            · exact (read1_input ⟨r, w⟩).trans (List.suffix_cons _ _)
            · split
              · exact (sbConsume_suffix _ r).trans (List.suffix_cons _ _)
              · exact List.suffix_cons _ _
  · rw [handleIAC_not c b hb]

lemma aux_writes : ∀ (fuel : Nat) (ts : List (List Byte)) (c : Conn) (buf : List Byte),
    ∃ l, (Telnet.readUntilAnyAux fuel ts c buf).1.writes = c.writes ++ l := by
  intro fuel
  induction fuel with
  | zero => intro ts c buf; exact ⟨[], by simp [Telnet.readUntilAnyAux]⟩
  | succ n ih =>
    intro ts c buf
    obtain ⟨i, w⟩ := c
    cases i with
    | nil => exact ⟨[], by simp [aux_step_empty]⟩
    | cons ev r =>
      cases ev with
      | fail e => exact ⟨[], by rw [aux_step_fail]; simp⟩
      | ok b =>
        simp only [Telnet.readUntilAnyAux, read1_ok]
        split
        · obtain ⟨l₁, h₁⟩ := handleIAC_writes ⟨r, w⟩ b
          obtain ⟨l₂, h₂⟩ := ih ts (Telnet.handleIAC ⟨r, w⟩ b).1 buf
          exact ⟨l₁ ++ l₂, by rw [h₂, h₁]; simp⟩
        · split
          · exact handleIAC_writes ⟨r, w⟩ b
          · obtain ⟨l₁, h₁⟩ := handleIAC_writes ⟨r, w⟩ b
            obtain ⟨l₂, h₂⟩ := ih ts (Telnet.handleIAC ⟨r, w⟩ b).1 (buf ++ [b])
            exact ⟨l₁ ++ l₂, by rw [h₂, h₁]; simp⟩
      | okErr b e =>
        simp only [Telnet.readUntilAnyAux, read1_okErr]
        split
        · obtain ⟨l₁, h₁⟩ := handleIAC_writes ⟨r, w⟩ b
          obtain ⟨l₂, h₂⟩ := ih ts (Telnet.handleIAC ⟨r, w⟩ b).1 buf
          exact ⟨l₁ ++ l₂, by rw [h₂, h₁]; simp⟩
        · split
          · exact handleIAC_writes ⟨r, w⟩ b
          · exact handleIAC_writes ⟨r, w⟩ b

lemma dataBytes_sublist : ∀ {l₁ l₂ : List ReadEv}, l₁.Sublist l₂ →
    (dataBytes l₁).Sublist (dataBytes l₂) := by
  intro l₁ l₂ h
  induction h with
  | slnil => exact List.Sublist.refl _
  | cons a h ih =>
    cases a with
    | ok b => exact ih.trans (List.sublist_cons_self _ _)
    | okErr b e => exact ih.trans (List.sublist_cons_self _ _)
    | fail e => exact ih
  | cons₂ a h ih =>
    cases a with
    | ok b => exact List.Sublist.cons₂ _ ih
    | okErr b e => exact List.Sublist.cons₂ _ ih
    | fail e => exact ih

/-- The buffer returned by one matcher call extends the starting buffer
only with bytes delivered by that call's own input script. -/
lemma aux_buf : ∀ (fuel : Nat) (ts : List (List Byte)) (c : Conn) (buf : List Byte),
    ∃ s, (Telnet.readUntilAnyAux fuel ts c buf).2.1 = buf ++ s
      ∧ s.Sublist (dataBytes c.input) := by
  intro fuel
  induction fuel with
  | zero =>
    intro ts c buf
    exact ⟨[], by simp [Telnet.readUntilAnyAux], List.nil_sublist _⟩
  | succ n ih =>
    intro ts c buf
    obtain ⟨i, w⟩ := c
    cases i with
    | nil => exact ⟨[], by simp [aux_step_empty], List.nil_sublist _⟩
    | cons ev r =>
      cases ev with
      | fail e => exact ⟨[], by rw [aux_step_fail]; simp, List.nil_sublist _⟩
      | ok b =>
        simp only [Telnet.readUntilAnyAux, read1_ok]
        split
        · obtain ⟨s, hs, hsub⟩ := ih ts (Telnet.handleIAC ⟨r, w⟩ b).1 buf
          refine ⟨s, hs, hsub.trans ?_⟩
          exact (dataBytes_sublist (handleIAC_input ⟨r, w⟩ b).sublist).trans
            (List.sublist_cons_self _ _)
        · split
          · exact ⟨[b], by simp, List.Sublist.cons₂ _ (List.nil_sublist _)⟩
          · obtain ⟨s, hs, hsub⟩ := ih ts (Telnet.handleIAC ⟨r, w⟩ b).1 (buf ++ [b])
            refine ⟨b :: s, by simpa using hs, List.Sublist.cons₂ _ ?_⟩
            exact hsub.trans (dataBytes_sublist (handleIAC_input ⟨r, w⟩ b).sublist)
      | okErr b e =>
        simp only [Telnet.readUntilAnyAux, read1_okErr]
        split
        · obtain ⟨s, hs, hsub⟩ := ih ts (Telnet.handleIAC ⟨r, w⟩ b).1 buf
          refine ⟨s, hs, hsub.trans ?_⟩
          exact (dataBytes_sublist (handleIAC_input ⟨r, w⟩ b).sublist).trans
            (List.sublist_cons_self _ _)
        · split
          · exact ⟨[b], by simp, List.Sublist.cons₂ _ (List.nil_sublist _)⟩
          · exact ⟨[b], by simp, List.Sublist.cons₂ _ (List.nil_sublist _)⟩

lemma readUntilAny_writes (ts : List (List Byte)) (c : Conn) :
    ∃ l, (Telnet.readUntilAny ts c).1.writes = c.writes ++ l :=
  aux_writes _ ts c []

lemma readUntilAny_buf (ts : List (List Byte)) (c : Conn) :
    ((Telnet.readUntilAny ts c).2.1).Sublist (dataBytes c.input) := by
  obtain ⟨s, hs, hsub⟩ := aux_buf (c.input.length + 1) ts c []
  have : (Telnet.readUntilAny ts c).2.1 = s := by
    rw [Telnet.readUntilAny, hs]
    simp
  rw [this]
  exact hsub

lemma afterShell_writes (conf : Schema) (c : Conn) :
    ∃ l, (Telnet.afterShell conf c).2.writes = c.writes ++ l := by
  unfold Telnet.afterShell Telnet.sendLine
  obtain ⟨l₁, h₁⟩ := readUntilAny_writes [str ("$ "), str ("# ")]
    (writeChunk c (str conf.Command ++ [13, 10]))
  simp only []
  split
  · rw [h₁]
    exact ⟨(str conf.Command ++ [13, 10]) :: l₁, by simp [writeChunk]⟩
  · rw [h₁]
    exact ⟨(str conf.Command ++ [13, 10]) :: l₁, by simp [writeChunk]⟩

lemma sshOutputLoop_writes : ∀ (fuel : Nat) (c : Conn) (acc : List Byte),
    ((Ssh.outputLoop fuel c acc).1).writes = c.writes := by
  intro fuel
  induction fuel with
  | zero => intro c acc; rfl
  | succ n ih =>
    intro c acc
    simp only [Ssh.outputLoop]
    split
    · rfl
    · exact ih _ _

/-! ## Concrete fixtures used by the claim theorems -/

/-- A configuration for scenario-style runs: expected output `alice`. -/
def confA : Schema := ⟨"host", 23, "alice", "secret", "whoami", "alice"⟩

/-- Scenario-A script for the option-aware variant: login prompt, password
prompt, shell prompt, then the command echo `alice` and the prompt again. -/
def connA : Conn := ⟨(str ("ogin:assword:$ alice\n$ ")).map ReadEv.ok, []⟩

/-- A configuration for the plain-line fixtures. -/
def confW : Schema := ⟨"host", 23, "user", "pw", "id", "uid=0"⟩

/-- Two successive prompts delivered on one option-aware connection. -/
def connC5 : Conn := ⟨(str ("ogin:assword:")).map ReadEv.ok, []⟩

/-! ## Claim theorems -/

/-- C1: the option-aware variant passes iff the captured buffer contains
the expected output as a substring, the plain-line variant passes iff the
trimmed accumulated output equals the trimmed expected output exactly, and
on the captured output `alice\n$ ` with expected output `alice` the
option-aware decision is pass while the plain-line decision is fail; the
option-aware `Run` on the scenario-A script indeed succeeds. -/
theorem C1_pass_decisions :
    (∀ (conf : Schema) (out : List Byte),
       Telnet.finalCheck conf out = .ok ()
         ↔ containsSub (str conf.ExpectedOutput) out = true)
    ∧ (∀ (conf : Schema) (out : List Byte),
       Ssh.finalCheck conf out = .ok ()
         ↔ trimSpace out = trimSpace (str conf.ExpectedOutput))
    ∧ Telnet.finalCheck confA (str ("alice\n$ ")) = .ok ()
    ∧ Ssh.finalCheck confA (str ("alice\n$ ")) = .error ("expected output mismatch")
    ∧ (Telnet.Run true none confA connA).1 = .ok () := by
  refine ⟨?_, ?_, ?_, ?_, ?_⟩
  · intro conf out
    unfold Telnet.finalCheck
    split <;> simp_all
  · intro conf out
    unfold Ssh.finalCheck
    split <;> simp_all
  · rfl
  · rfl
  · rfl

/-- C2: on an inbound triple (IAC, DO, x) the filter consumes the whole
sequence, writes exactly (IAC, WONT, x), and forwards no application byte
to the buffer; (IAC, WILL, x) is answered with exactly (IAC, DONT, x);
(IAC, WONT, x) and (IAC, DONT, x) consume the option byte with nothing
written and nothing forwarded, both at the level of `handleIAC` and inside
the matcher loop. -/
theorem C2_filter_refusals :
    ∀ (fuel : Nat) (ts : List (List Byte)) (x : Byte) (rest : List ReadEv)
      (w : List (List Byte)) (buf : List Byte),
    (Telnet.handleIAC ⟨.ok Telnet.DO :: .ok x :: rest, w⟩ Telnet.IAC
       = (⟨rest, w ++ [[Telnet.IAC, Telnet.WONT, x]]⟩, true))
    ∧ (Telnet.handleIAC ⟨.ok Telnet.WILL :: .ok x :: rest, w⟩ Telnet.IAC
       = (⟨rest, w ++ [[Telnet.IAC, Telnet.DONT, x]]⟩, true))
    ∧ (Telnet.handleIAC ⟨.ok Telnet.WONT :: .ok x :: rest, w⟩ Telnet.IAC
       = (⟨rest, w⟩, true))
    ∧ (Telnet.handleIAC ⟨.ok Telnet.DONT :: .ok x :: rest, w⟩ Telnet.IAC
       = (⟨rest, w⟩, true))
    ∧ (Telnet.readUntilAnyAux (fuel+1) ts
         ⟨.ok Telnet.IAC :: .ok Telnet.DO :: .ok x :: rest, w⟩ buf
       = Telnet.readUntilAnyAux fuel ts ⟨rest, w ++ [[Telnet.IAC, Telnet.WONT, x]]⟩ buf)
    ∧ (Telnet.readUntilAnyAux (fuel+1) ts
         ⟨.ok Telnet.IAC :: .ok Telnet.WILL :: .ok x :: rest, w⟩ buf
       = Telnet.readUntilAnyAux fuel ts ⟨rest, w ++ [[Telnet.IAC, Telnet.DONT, x]]⟩ buf)
    ∧ (Telnet.readUntilAnyAux (fuel+1) ts
         ⟨.ok Telnet.IAC :: .ok Telnet.WONT :: .ok x :: rest, w⟩ buf
       = Telnet.readUntilAnyAux fuel ts ⟨rest, w⟩ buf)
    ∧ (Telnet.readUntilAnyAux (fuel+1) ts
         ⟨.ok Telnet.IAC :: .ok Telnet.DONT :: .ok x :: rest, w⟩ buf
       = Telnet.readUntilAnyAux fuel ts ⟨rest, w⟩ buf) := by
  intro fuel ts x rest w buf
  exact ⟨rfl, rfl, rfl, rfl, rfl, rfl, rfl, rfl⟩

/-- C3: once the password prompt has matched, the next chunk the
option-aware variant writes is the configured username followed by CR LF
(the username is sent a second time where a password is expected), and the
whole option-aware `Run` is independent of the configured password, so the
password is never written. -/
theorem C3_username_resent_password_never :
    (∀ (conf : Schema) (c : Conn),
       ∃ tail, (Telnet.afterPassword conf c).2.writes
         = c.writes ++ [str conf.Username ++ [13, 10]] ++ tail)
    ∧ (∀ (s : String) (pt : Nat) (u pw₁ pw₂ cm ex : String) (hd : Bool)
         (de : Option String) (c : Conn),
       Telnet.Run hd de ⟨s, pt, u, pw₁, cm, ex⟩ c
         = Telnet.Run hd de ⟨s, pt, u, pw₂, cm, ex⟩ c) := by
  constructor
  · intro conf c
    unfold Telnet.afterPassword Telnet.sendLine
    simp only []
    obtain ⟨l₁, h₁⟩ := readUntilAny_writes [str ("$ "), str ("# ")]
      (writeChunk c (str conf.Username ++ [13, 10]))
    split
    · rw [h₁]
      exact ⟨l₁, by simp [writeChunk]⟩
    · obtain ⟨l₂, h₂⟩ := afterShell_writes conf
        (Telnet.readUntilAny [str ("$ "), str ("# ")]
          (writeChunk c (str conf.Username ++ [13, 10]))).1
      rw [h₂, h₁]
      exact ⟨l₁ ++ l₂, by simp [writeChunk]⟩
  · intro s pt u pw₁ pw₂ cm ex hd de c
    rfl

/-- C10: with no deadline on the context, both variants return the
deadline error immediately, with the connection untouched (no bytes read or
written) and the result independent of whether a dial would succeed. -/
theorem C10_no_deadline_no_network :
    ∀ (dialErr : Option String) (conf : Schema) (c : Conn),
    Telnet.Run false dialErr conf c = (.error ("context deadline is not set"), c)
    ∧ Ssh.Run false dialErr conf c = (.error ("context deadline is not set"), c) := by
  intro de conf c
  exact ⟨rfl, rfl⟩

/-- C5 counterexample: on one connection delivering `ogin:assword:`, the
first wait (target `ogin:`) returns buffer `ogin:` and the second wait
(target `assword:`) on the same connection returns exactly `assword:`,
which does not contain the first buffer — so the accumulation buffer does
not persist and keep growing across successive wait calls. -/
theorem C5_counterexample :
    (Telnet.readUntilAny [str ("ogin:")] connC5).2 = (str ("ogin:"), none)
    ∧ (Telnet.readUntilAny [str ("assword:")]
         (Telnet.readUntilAny [str ("ogin:")] connC5).1).2 = (str ("assword:"), none)
    ∧ containsSub (str ("ogin:"))
        (Telnet.readUntilAny [str ("assword:")]
          (Telnet.readUntilAny [str ("ogin:")] connC5).1).2.1 = false := by
  refine ⟨rfl, rfl, rfl⟩

/-- C5 amended: each wait call starts from a fresh empty buffer, and the
buffer it returns is built only from bytes delivered by that call's own
remaining input (a sublist of them) — the buffer does not persist across
wait calls. -/
theorem C5_fresh_buffer_each_wait :
    ∀ (ts : List (List Byte)) (c : Conn),
    Telnet.readUntilAny ts c = Telnet.readUntilAnyAux (c.input.length + 1) ts c []
    ∧ ((Telnet.readUntilAny ts c).2.1).Sublist (dataBytes c.input) := by
  intro ts c
  exact ⟨rfl, readUntilAny_buf ts c⟩

/-- C7 counterexample: with inbound (IAC, DO) followed by a read failure on
the option byte, the filter does not stop silently — it still writes the
refusal triple (IAC, WONT, 0) with a zero option byte, contradicting the
claim that no refusal reply is written after a read error inside the
sequence. -/
theorem C7_counterexample :
    Telnet.handleIAC ⟨[.ok Telnet.DO], []⟩ Telnet.IAC
      = (⟨[], [[Telnet.IAC, Telnet.WONT, 0]]⟩, true)
    ∧ (Telnet.handleIAC ⟨[.ok Telnet.DO], []⟩ Telnet.IAC).1.writes ≠ [] := by
  refine ⟨rfl, ?_⟩
  intro h
  have : ([[Telnet.IAC, Telnet.WONT, 0]] : List (List Byte)) = [] := h
  simp at this

/-- C7 amended: a read error on the command byte (with or without a byte
delivered) or at any read inside subnegotiation stops the filter, returns
handled, surfaces no error and writes nothing; but a read error while
reading the option byte of DO or WILL is ignored and the refusal triple is
still written with a zero option byte, and for WONT and DONT the
option-byte read error is likewise ignored with nothing written. -/
theorem C7_error_swallowed :
    ∀ (e : String) (b : Byte) (rest : List ReadEv) (w : List (List Byte)),
    (Telnet.handleIAC ⟨.fail e :: rest, w⟩ Telnet.IAC = (⟨rest, w⟩, true))
    ∧ (Telnet.handleIAC ⟨.okErr b e :: rest, w⟩ Telnet.IAC = (⟨rest, w⟩, true))
    ∧ (Telnet.handleIAC ⟨.ok Telnet.SB :: .fail e :: rest, w⟩ Telnet.IAC
        = (⟨rest, w⟩, true))
    ∧ (Telnet.handleIAC ⟨.ok Telnet.DO :: .fail e :: rest, w⟩ Telnet.IAC
        = (⟨rest, w ++ [[Telnet.IAC, Telnet.WONT, 0]]⟩, true))
    ∧ (Telnet.handleIAC ⟨.ok Telnet.WILL :: .fail e :: rest, w⟩ Telnet.IAC
        = (⟨rest, w ++ [[Telnet.IAC, Telnet.DONT, 0]]⟩, true))
    ∧ (Telnet.handleIAC ⟨.ok Telnet.WONT :: .fail e :: rest, w⟩ Telnet.IAC
        = (⟨rest, w⟩, true))
    ∧ (Telnet.handleIAC ⟨.ok Telnet.DONT :: .fail e :: rest, w⟩ Telnet.IAC
        = (⟨rest, w⟩, true)) := by
  intro e b rest w
  exact ⟨rfl, rfl, rfl, rfl, rfl, rfl, rfl⟩

/-- C8: in the plain-line variant, after the password has been sent exactly
one more line is read; if that line contains `login:` the probe returns the
login-failure error with nothing further written (the command is never
sent), and otherwise the probe writes exactly the command followed by LF. -/
theorem C8_one_more_line (conf : Schema) (c : Conn) (rest : List ReadEv) (line : List Byte)
    (h : Ssh.readStringAux c.input [] = (rest, (line, none))) :
    (containsSub (str ("login:")) line = true →
       Ssh.afterPassword conf c = (.error ("Login failed"), ⟨rest, c.writes⟩))
    ∧ (containsSub (str ("login:")) line = false →
       (Ssh.afterPassword conf c).2.writes = c.writes ++ [str conf.Command ++ [10]]) := by
  constructor
  · intro hc
    unfold Ssh.afterPassword
    rw [h]
    simp only [hc, if_true]
  · intro hc
    unfold Ssh.afterPassword
    rw [h]
    simp only [hc, Bool.false_eq_true, if_false]
    rw [sshOutputLoop_writes]
    simp [writeChunk]

/-- Witness for C8: a concrete connection whose next line is `login:` ends
in the login-failure error with no command written. -/
theorem C8_one_more_line_witness :
    Ssh.afterPassword confW ⟨(str ("login:\n")).map ReadEv.ok, []⟩
      = (.error ("Login failed"), ⟨[], []⟩) := by
  have h := C8_one_more_line confW ⟨(str ("login:\n")).map ReadEv.ok, []⟩ []
    (str ("login:\n")) (by rfl)
  exact h.1 (by rfl)

/-- C6: when a read fails (or the deadline expires) during a wait before
any target has matched, the call returns the partial buffer accumulated so
far together with a wrapped error carrying the target list that was being
awaited; and every error this matcher ever returns carries that target
list. -/
theorem C6_error_carries_targets (ts : List (List Byte)) (data : List Byte) (e : String)
    (rest : List ReadEv) (w : List (List Byte))
    (hno : ∀ b ∈ data, b ≠ 255)
    (hnm : ∀ j, j ≤ data.length → Telnet.matchTarget ts (data.take j) = none) :
    (Telnet.readUntilAny ts ⟨data.map ReadEv.ok ++ .fail e :: rest, w⟩).2
      = (data, some ((ts, e)))
    ∧ (∀ (c : Conn) (p : List (List Byte) × String),
        (Telnet.readUntilAny ts c).2.2 = some p → p.1 = ts) := by
  constructor
  · have hs := aux_skip ts data (.fail e :: rest) w [] hno
      (by intro j hj; simpa using hnm j hj)
    rw [Telnet.readUntilAny]
    rw [show (⟨data.map ReadEv.ok ++ .fail e :: rest, w⟩ : Conn).input.length + 1
        = (data.map ReadEv.ok ++ .fail e :: rest).length + 1 from rfl]
    rw [hs, aux_step_fail]
    simp
  · intro c p hp
    exact aux_err_targets _ ts c [] p hp

/-- Witness for C6: awaiting `ogin:` on a connection that delivers `lo`
and then fails yields the partial buffer `lo` and an error carrying the
target list and the read error. -/
theorem C6_error_carries_targets_witness :
    (Telnet.readUntilAny [str ("ogin:")]
        ⟨(str ("lo")).map ReadEv.ok ++ .fail ("timeout") :: [], []⟩).2
      = (str ("lo"), some (([str ("ogin:")], "timeout"))) :=
  (C6_error_carries_targets [str ("ogin:")] (str ("lo")) ("timeout") [] []
    (by decide) (by decide)).1

/-- C9: a match takes priority over an error delivered by the same read:
when the byte delivered together with a read error completes the first
occurrence of a target, the call returns the buffer with no error and the
read error is discarded; the error is returned only when no target matches
after the append. -/
theorem C9_match_priority (ts : List (List Byte)) (data : List Byte) (b : Byte) (e : String)
    (rest : List ReadEv) (w : List (List Byte))
    (hno : ∀ x ∈ data, x ≠ 255) (hb : b ≠ 255)
    (hnm : ∀ j, j ≤ data.length → Telnet.matchTarget ts (data.take j) = none) :
    ((Telnet.matchTarget ts (data ++ [b])).isSome = true →
       (Telnet.readUntilAny ts ⟨data.map ReadEv.ok ++ .okErr b e :: rest, w⟩).2
         = (data ++ [b], none))
    ∧ ((Telnet.matchTarget ts (data ++ [b])).isSome = false →
       (Telnet.readUntilAny ts ⟨data.map ReadEv.ok ++ .okErr b e :: rest, w⟩).2
         = (data ++ [b], some ((ts, e)))) := by
  have hs := aux_skip ts data (.okErr b e :: rest) w [] hno
    (by intro j hj; simpa using hnm j hj)
  simp only [List.nil_append] at hs
  constructor
  · intro hm
    rw [Telnet.readUntilAny]
    rw [show (⟨data.map ReadEv.ok ++ .okErr b e :: rest, w⟩ : Conn).input.length + 1
        = (data.map ReadEv.ok ++ .okErr b e :: rest).length + 1 from rfl]
    rw [hs, aux_step_okErr _ _ _ _ _ _ _ hb, if_pos hm]
  · intro hm
    rw [Telnet.readUntilAny]
    rw [show (⟨data.map ReadEv.ok ++ .okErr b e :: rest, w⟩ : Conn).input.length + 1
        = (data.map ReadEv.ok ++ .okErr b e :: rest).length + 1 from rfl]
    rw [hs, aux_step_okErr _ _ _ _ _ _ _ hb, if_neg (by simp [hm])]

/-- Witness for C9: with target `ab`, delivering `a` and then `b` together
with a read error returns the buffer `ab` and no error. -/
theorem C9_match_priority_witness :
    (Telnet.readUntilAny [str ("ab")]
        ⟨[.ok 97, .okErr 98 ("boom")], []⟩).2 = (str ("ab"), none) := by
  have h := (C9_match_priority [str ("ab")] [97] 98 ("boom") [] []
    (by decide) (by decide) (by decide)).1 (by decide)
  exact h

/-- C4 counterexample: with the empty string as a target the buffer already
contains the target at offset 0, yet the matcher only checks after
appending a byte, so it returns a buffer of length 1 — the returned length
does not equal the offset of the first complete occurrence of the
earliest-satisfied target. -/
theorem C4_counterexample :
    (Telnet.matchTarget [([] : List Byte)] []).isSome = true
    ∧ (Telnet.readUntilAny [([] : List Byte)] ⟨[.ok 97], []⟩).2 = ([97], none)
    ∧ (Telnet.readUntilAny [([] : List Byte)] ⟨[.ok 97], []⟩).2.1.length ≠ 0 := by
  exact ⟨rfl, rfl, Nat.one_ne_zero⟩

/-- C4 amended: for non-empty targets and byte-by-byte application data,
the matcher returns with no error exactly at the first appended byte after
which the buffer contains some target and not at any earlier point; the
returned buffer is the full accumulation, of length equal to the position
`k₀` at which the earliest target occurrence completes, and the target the
scan selects is the first in list order that the buffer contains. -/
theorem C4_earliest_match (ts : List (List Byte)) (data : List Byte)
    (rest : List ReadEv) (w : List (List Byte)) (k₀ : Nat)
    (hnz : ∀ t ∈ ts, t ≠ [])
    (hno : ∀ b ∈ data, b ≠ 255)
    (hk : k₀ ≤ data.length)
    (hm : (Telnet.matchTarget ts (data.take k₀)).isSome = true)
    (hmin : ∀ j, j < k₀ → Telnet.matchTarget ts (data.take j) = none) :
    (Telnet.readUntilAny ts ⟨data.map ReadEv.ok ++ rest, w⟩).2 = (data.take k₀, none)
    ∧ ∃ l₁ t l₂, ts = l₁ ++ t :: l₂ ∧ Telnet.matchTarget ts (data.take k₀) = some t
        ∧ ∀ u ∈ l₁, containsSub u (data.take k₀) = false := by
  obtain ⟨m, rfl⟩ : ∃ m, k₀ = m + 1 := by
    cases k₀ with
    | zero => exact absurd hm (by simp [matchTarget_nil ts hnz])
    | succ m => exact ⟨m, rfl⟩
  have hmlt : m < data.length := by omega
  have htake : data.take (m+1) = data.take m ++ [data[m]] := by
    rw [List.take_succ, List.getElem?_eq_getElem hmlt]
    rfl
  constructor
  · have hsplit := List.take_append_drop m data
    rw [List.drop_eq_getElem_cons hmlt] at hsplit
    have hdata : data.map ReadEv.ok ++ rest
        = (data.take m).map ReadEv.ok
          ++ (ReadEv.ok data[m] :: ((data.drop (m+1)).map ReadEv.ok ++ rest)) := by
      conv_lhs => rw [← hsplit]
      rw [List.map_append, List.map_cons, List.append_assoc, List.cons_append]
    have hskip := aux_skip ts (data.take m)
      (ReadEv.ok data[m] :: ((data.drop (m+1)).map ReadEv.ok ++ rest)) w []
      (fun x hx => hno x (List.mem_of_mem_take hx))
      (by
        intro j hj
        have hjm : j ≤ m := by
          have := List.length_take m data
          omega
        rw [List.take_take, Nat.min_eq_left hjm]
        simp only [List.nil_append]
        exact hmin j (by omega))
    rw [Telnet.readUntilAny]
    rw [show (⟨data.map ReadEv.ok ++ rest, w⟩ : Conn).input.length + 1
        = (data.map ReadEv.ok ++ rest).length + 1 from rfl]
    rw [hdata, hskip]
    simp only [List.nil_append]
    rw [aux_step_ok _ _ _ _ _ _ (hno _ (List.getElem_mem hmlt))]
    rw [if_pos (by rw [← htake]; exact hm)]
    rw [htake]
  · have hm₂ := hm
    obtain ⟨t, ht⟩ := Option.isSome_iff_exists.mp hm₂
    obtain ⟨l₁, l₂, hts, hall⟩ :=
      find?_layout (fun u => containsSub u (data.take (m+1))) ts t ht
    exact ⟨l₁, t, l₂, hts, ht, hall⟩

/-- Witness for C4 amended: awaiting `ogin:` over `login:xyz` delivered
byte-by-byte returns exactly the first six bytes `login:` and no error. -/
theorem C4_earliest_match_witness :
    (Telnet.readUntilAny [str ("ogin:")] ⟨(str ("login:xyz")).map ReadEv.ok, []⟩).2
      = ((str ("login:xyz")).take 6, none) := by
  have h := (C4_earliest_match [str ("ogin:")] (str ("login:xyz")) [] [] 6
    (by decide) (by decide) (by decide) (by decide) (by decide)).1
  simpa using h
